import Mathlib

/-!
Verification of the text-encoding detection and transcoding core
(`src/vs/workbench/services/textfile/common/encoding.ts`).

The TypeScript source is shallowly embedded: byte buffers become `List Nat`
(each element a byte value `0..255`), possibly-null buffers become
`Option (List Nat)`, JavaScript strings become Lean `String`
(the labels involved are ASCII, where JavaScript `toLowerCase` agrees with
mapping `Char.toLower` over the characters), and the external `jschardet`
classifier is a parameter `classifier : List Nat → Option String`
standing for `jschardet.detect(...).encoding`.
`buffer.readUInt8(i)` on an out-of-range index yields `undefined` in
JavaScript, which compares unequal to every byte value; the embedding
models this with the sentinel value `256`.
-/

namespace Encoding

/-- Source: `export const UTF8 = 'utf8'`. -/
def UTF8 : String := "utf8"

/-- Source: `export const UTF8_with_bom = 'utf8bom'`. -/
def UTF8_with_bom : String := "utf8bom"

/-- Source: `export const UTF16be = 'utf16be'`. -/
def UTF16be : String := "utf16be"

/-- Source: `export const UTF16le = 'utf16le'`. -/
def UTF16le : String := "utf16le"

/-- Source: `export const UTF16be_BOM = [0xFE, 0xFF]`. -/
def UTF16be_BOM : List Nat := [0xFE, 0xFF]

/-- Source: `export const UTF16le_BOM = [0xFF, 0xFE]`. -/
def UTF16le_BOM : List Nat := [0xFF, 0xFE]

/-- Source: `export const UTF8_BOM = [0xEF, 0xBB, 0xBF]`. -/
def UTF8_BOM : List Nat := [0xEF, 0xBB, 0xBF]

/-- Source: `const ZERO_BYTE_DETECTION_BUFFER_MAX_LEN = 512`. -/
def ZERO_BYTE_DETECTION_BUFFER_MAX_LEN : Nat := 512

/-- Source: `const NO_ENCODING_GUESS_MIN_BYTES = 512`. -/
def NO_ENCODING_GUESS_MIN_BYTES : Nat := 512

/-- Source: `const AUTO_ENCODING_GUESS_MIN_BYTES = 512 * 8`. -/
def AUTO_ENCODING_GUESS_MIN_BYTES : Nat := 512 * 8

/-- Source: `const AUTO_ENCODING_GUESS_MAX_BYTES = 512 * 128`. -/
def AUTO_ENCODING_GUESS_MAX_BYTES : Nat := 512 * 128

/-- The effective detection threshold computed by the first line of
`toDecodeStream`:

`const minBytesRequiredForDetection = options.minBytesRequiredForDetection ?? options.guessEncoding ? AUTO_ENCODING_GUESS_MIN_BYTES : NO_ENCODING_GUESS_MIN_BYTES;`

In JavaScript `??` binds tighter than the conditional operator, so this parses
as `(options.minBytesRequiredForDetection ?? options.guessEncoding) ? A : B`:
the scrutinee of the conditional is the supplied number when present
(truthy iff nonzero) and `options.guessEncoding` otherwise.
`minBytes = none` models an absent `minBytesRequiredForDetection`. -/
def toDecodeStreamMinBytes (minBytes : Option Nat) (guessEncoding : Bool) : Nat :=
  let scrutineeTruthy : Bool :=
    match minBytes with
    | some n => n != 0
    | none => guessEncoding
  if scrutineeTruthy then AUTO_ENCODING_GUESS_MIN_BYTES else NO_ENCODING_GUESS_MIN_BYTES

/-- Modelled from the spec (the behaviour the specification ascribes to the
threshold computation in `toDecodeStream`, for comparison with
`toDecodeStreamMinBytes`): the threshold equals
`options.minBytesRequiredForDetection` whenever supplied, and otherwise the
guessing-dependent constant. -/
def specMinBytesForDetection (minBytes : Option Nat) (guessEncoding : Bool) : Nat :=
  match minBytes with
  | some n => n
  | none =>
    if guessEncoding then AUTO_ENCODING_GUESS_MIN_BYTES else NO_ENCODING_GUESS_MIN_BYTES

/-- Embedding of `buffer.readUInt8(i)`: the byte at index `i`, or the
sentinel `256` (playing the role of JavaScript `undefined`, which compares
unequal to every byte value) when `i` is out of range. -/
def readUInt8 (buffer : List Nat) (i : Nat) : Nat :=
  (buffer.get? i).getD 256

/-- Embedding of `detectEncodingByBOMFromBuffer(buffer, bytesRead)`.
Returns `some UTF8_with_bom`, `some UTF16le`, `some UTF16be` or `none`. -/
def detectEncodingByBOMFromBuffer (buffer : Option (List Nat)) (bytesRead : Nat) :
    Option String :=
  match buffer with
  | none => none
  | some buf =>
    if bytesRead < UTF16be_BOM.length then none
    else
      let b0 := readUInt8 buf 0
      let b1 := readUInt8 buf 1
      if b0 = UTF16be_BOM.getD 0 0 ∧ b1 = UTF16be_BOM.getD 1 0 then some UTF16be
      else if b0 = UTF16le_BOM.getD 0 0 ∧ b1 = UTF16le_BOM.getD 1 0 then some UTF16le
      else if bytesRead < UTF8_BOM.length then none
      else
        let b2 := readUInt8 buf 2
        if b0 = UTF8_BOM.getD 0 0 ∧ b1 = UTF8_BOM.getD 1 0 ∧ b2 = UTF8_BOM.getD 2 0 then
          some UTF8_with_bom
        else none

/-- The three mutable booleans of the zero-byte detection loop in
`detectEncodingFromBuffer`. -/
structure ScanState where
  couldBeUTF16LE : Bool
  couldBeUTF16BE : Bool
  containsZeroByte : Bool
deriving DecidableEq, Repr

/-- Embedding of the zero-byte detection loop of `detectEncodingFromBuffer`,
including the early `break`. `fuel` is the number of remaining iterations
(`min bytesRead ZERO_BYTE_DETECTION_BUFFER_MAX_LEN - i` at loop entry) and
`i` the current byte index. -/
def scanFrom (buffer : List Nat) : Nat → Nat → ScanState → ScanState
  | 0, _, st => st
  | fuel + 1, i, st =>
    let isEndian := i % 2 == 1
    let isZeroByte := readUInt8 buffer i == 0
    let containsZeroByte := st.containsZeroByte || isZeroByte
    let couldBeUTF16LE :=
      st.couldBeUTF16LE && !(isEndian && !isZeroByte || !isEndian && isZeroByte)
    let couldBeUTF16BE :=
      st.couldBeUTF16BE && !(isEndian && isZeroByte || !isEndian && !isZeroByte)
    let st' : ScanState := ⟨couldBeUTF16LE, couldBeUTF16BE, containsZeroByte⟩
    if isZeroByte && !couldBeUTF16LE && !couldBeUTF16BE then st'
    else scanFrom buffer fuel (i + 1) st'

/-- The same loop without the early `break`: every iteration of the scanned
window is executed. Used to state the refinement claim about the `break`. -/
def scanFromNoBreak (buffer : List Nat) : Nat → Nat → ScanState → ScanState
  | 0, _, st => st
  | fuel + 1, i, st =>
    let isEndian := i % 2 == 1
    let isZeroByte := readUInt8 buffer i == 0
    let containsZeroByte := st.containsZeroByte || isZeroByte
    let couldBeUTF16LE :=
      st.couldBeUTF16LE && !(isEndian && !isZeroByte || !isEndian && isZeroByte)
    let couldBeUTF16BE :=
      st.couldBeUTF16BE && !(isEndian && isZeroByte || !isEndian && !isZeroByte)
    scanFromNoBreak buffer fuel (i + 1) ⟨couldBeUTF16LE, couldBeUTF16BE, containsZeroByte⟩

/-- Embedding of `IDetectedEncodingResult`. -/
structure IDetectedEncodingResult where
  encoding : Option String
  seemsBinary : Bool
deriving DecidableEq, Repr

/-- The synchronous part of `detectEncodingFromBuffer`: BOM detection followed
by the zero-byte heuristic (which is skipped when the BOM already decided
UTF-16 or the buffer is null), before the statistical-guess step. -/
def detectPhase12 (buffer : Option (List Nat)) (bytesRead : Nat) : IDetectedEncodingResult :=
  let encoding := detectEncodingByBOMFromBuffer buffer bytesRead
  match buffer with
  | none => { encoding := encoding, seemsBinary := false }
  | some buf =>
    if encoding == some UTF16be || encoding == some UTF16le then
      { encoding := encoding, seemsBinary := false }
    else
      let st := scanFrom buf (min bytesRead ZERO_BYTE_DETECTION_BUFFER_MAX_LEN) 0
        ⟨true, true, false⟩
      if st.containsZeroByte then
        if st.couldBeUTF16LE then { encoding := some UTF16le, seemsBinary := false }
        else if st.couldBeUTF16BE then { encoding := some UTF16be, seemsBinary := false }
        else { encoding := encoding, seemsBinary := true }
      else { encoding := encoding, seemsBinary := false }

/-- Variant of `detectPhase12` with the break-free scan, for the refinement
claim. -/
def detectPhase12NoBreak (buffer : Option (List Nat)) (bytesRead : Nat) :
    IDetectedEncodingResult :=
  let encoding := detectEncodingByBOMFromBuffer buffer bytesRead
  match buffer with
  | none => { encoding := encoding, seemsBinary := false }
  | some buf =>
    if encoding == some UTF16be || encoding == some UTF16le then
      { encoding := encoding, seemsBinary := false }
    else
      let st := scanFromNoBreak buf (min bytesRead ZERO_BYTE_DETECTION_BUFFER_MAX_LEN) 0
        ⟨true, true, false⟩
      if st.containsZeroByte then
        if st.couldBeUTF16LE then { encoding := some UTF16le, seemsBinary := false }
        else if st.couldBeUTF16BE then { encoding := some UTF16be, seemsBinary := false }
        else { encoding := encoding, seemsBinary := true }
      else { encoding := encoding, seemsBinary := false }

/-- Source: `const IGNORE_ENCODINGS = ['ascii', 'utf-16', 'utf-32']`. -/
def IGNORE_ENCODINGS : List String := ["ascii", "utf-16", "utf-32"]

/-- Source: the fixed alias table `JSCHARDET_TO_ICONV_ENCODINGS`
(`'ibm866' -> 'cp866'`, `'big5' -> 'cp950'`), as a partial lookup. -/
def JSCHARDET_TO_ICONV_ENCODINGS (name : String) : Option String :=
  if name = "ibm866" then some "cp866"
  else if name = "big5" then some "cp950"
  else none

/-- JavaScript `String.prototype.toLowerCase` restricted to the ASCII labels
at play: lowercase each character. -/
def jsToLowerCase (s : String) : String :=
  ⟨s.data.map Char.toLower⟩

/-- Embedding of `encodingName.replace(/[^a-zA-Z0-9]/g, '').toLowerCase()`
inside `toIconvLiteEncoding`: drop every non-alphanumeric character, then
lowercase. -/
def normalizeEncodingName (s : String) : String :=
  ⟨(s.data.filter fun c => c.isAlphanum).map Char.toLower⟩

/-- Embedding of `toIconvLiteEncoding(encodingName)`: normalize, then map
through the alias table, unmapped names passing through normalized
(`return mapped || normalizedEncodingName`; the table values are nonempty,
so JavaScript `||` picks `mapped` exactly when the lookup succeeded). -/
def toIconvLiteEncoding (encodingName : String) : String :=
  let normalizedEncodingName := normalizeEncodingName encodingName
  match JSCHARDET_TO_ICONV_ENCODINGS normalizedEncodingName with
  | some mapped => mapped
  | none => normalizedEncodingName

/-- The label-processing tail of `guessEncodingByBuffer`, applied to
`guessed.encoding` (the classifier result, `none` for a missing detection;
an empty-string label is falsy in `if (!guessed.encoding)` and also yields
`null`):

`const enc = guessed.encoding.toLowerCase(); if (0 <= IGNORE_ENCODINGS.indexOf(enc)) return null; return toIconvLiteEncoding(guessed.encoding);` -/
def guessEncodingLogic (guessedEncoding : Option String) : Option String :=
  match guessedEncoding with
  | none => none
  | some label =>
    if label = "" then none
    else
      let enc := jsToLowerCase label
      if enc ∈ IGNORE_ENCODINGS then none
      else some (toIconvLiteEncoding label)

/-- Embedding of `guessEncodingByBuffer(buffer)`, with the external
`jschardet.detect` abstracted as `classifier`. The buffer is first limited to
`AUTO_ENCODING_GUESS_MAX_BYTES` (`buffer.slice(0, AUTO_ENCODING_GUESS_MAX_BYTES)`). -/
def guessEncodingByBuffer (classifier : List Nat → Option String) (buffer : List Nat) :
    Option String :=
  let limitedBuffer := buffer.take AUTO_ENCODING_GUESS_MAX_BYTES
  guessEncodingLogic (classifier limitedBuffer)

/-- Modelled from the spec (the behaviour claim C2 ascribes to the guesser's
label processing, for comparison with `guessEncodingLogic`): normalize first,
reject exactly when the normalized label is in the ignore set, then alias-map
the surviving normalized label. -/
def specGuessLabelLogic (guessedEncoding : Option String) : Option String :=
  match guessedEncoding with
  | none => none
  | some label =>
    let normalized := normalizeEncodingName label
    if normalized ∈ IGNORE_ENCODINGS then none
    else
      match JSCHARDET_TO_ICONV_ENCODINGS normalized with
      | some mapped => some mapped
      | none => some normalized

/-- Embedding of `detectEncodingFromBuffer({ buffer, bytesRead }, autoGuessEncoding)`:
BOM detection, then the zero-byte heuristic, then (under
`autoGuessEncoding && !seemsBinary && !encoding && buffer`) the statistical
guess over `buffer.slice(0, bytesRead)`. -/
def detectEncodingFromBuffer (classifier : List Nat → Option String)
    (buffer : Option (List Nat)) (bytesRead : Nat) (autoGuessEncoding : Bool) :
    IDetectedEncodingResult :=
  let r := detectPhase12 buffer bytesRead
  if autoGuessEncoding && !r.seemsBinary && r.encoding == none && buffer.isSome then
    { seemsBinary := false,
      encoding := guessEncodingByBuffer classifier ((buffer.getD []).take bytesRead) }
  else r

/-- Variant of `detectEncodingFromBuffer` built on the break-free scan, for
the refinement claim. -/
def detectEncodingFromBufferNoBreak (classifier : List Nat → Option String)
    (buffer : Option (List Nat)) (bytesRead : Nat) (autoGuessEncoding : Bool) :
    IDetectedEncodingResult :=
  let r := detectPhase12NoBreak buffer bytesRead
  if autoGuessEncoding && !r.seemsBinary && r.encoding == none && buffer.isSome then
    { seemsBinary := false,
      encoding := guessEncodingByBuffer classifier ((buffer.getD []).take bytesRead) }
  else r

/-- The per-index condition under which the `couldBeUTF16LE` flag survives
the loop iteration at index `j`: a zero byte at odd indices, a nonzero byte at
even indices. -/
def leOk (buffer : List Nat) (j : Nat) : Bool :=
  if j % 2 == 1 then readUInt8 buffer j == 0 else !(readUInt8 buffer j == 0)

/-- The per-index condition under which the `couldBeUTF16BE` flag survives
the loop iteration at index `j`: a nonzero byte at odd indices, a zero byte at
even indices. -/
def beOk (buffer : List Nat) (j : Nat) : Bool :=
  if j % 2 == 1 then !(readUInt8 buffer j == 0) else readUInt8 buffer j == 0

theorem scanFromNoBreak_eq (buffer : List Nat) :
    ∀ (fuel i : Nat) (st : ScanState),
    scanFromNoBreak buffer fuel i st =
      ⟨st.couldBeUTF16LE && (List.range' i fuel).all (leOk buffer),
       st.couldBeUTF16BE && (List.range' i fuel).all (beOk buffer),
       st.containsZeroByte || (List.range' i fuel).any fun j => readUInt8 buffer j == 0⟩ := by
  intro fuel
  induction fuel with
  | zero => intro i st; simp [scanFromNoBreak, List.range']
  | succ fuel ih =>
    intro i st
    rw [scanFromNoBreak, ih, List.range'_succ]
    cases h1 : (i % 2 == 1) <;> cases h2 : (readUInt8 buffer i == 0) <;>
      simp [h1, h2, leOk, beOk, Bool.and_assoc, Bool.or_assoc]

theorem scanFrom_eq_scanFromNoBreak (buffer : List Nat) :
    ∀ (fuel i : Nat) (st : ScanState),
    scanFrom buffer fuel i st = scanFromNoBreak buffer fuel i st := by
  intro fuel
  induction fuel with
  | zero => intro i st; rfl
  | succ fuel ih =>
    intro i st
    rw [scanFrom, scanFromNoBreak]
    by_cases hbr :
        ((readUInt8 buffer i == 0)
          && !(st.couldBeUTF16LE
                && !((i % 2 == 1) && !(readUInt8 buffer i == 0)
                      || !(i % 2 == 1) && (readUInt8 buffer i == 0)))
          && !(st.couldBeUTF16BE
                && !((i % 2 == 1) && (readUInt8 buffer i == 0)
                      || !(i % 2 == 1) && !(readUInt8 buffer i == 0)))) = true
    · simp only [hbr, if_pos]
      have h' := hbr
      simp only [Bool.and_eq_true, Bool.not_eq_true'] at h'
      obtain ⟨⟨hz, hle⟩, hbe⟩ := h'
      simp only [hz] at hle hbe
      rw [scanFromNoBreak_eq]
      simp only [hz, hle, hbe, Bool.false_and, Bool.or_true, Bool.true_or]
    · simp only [hbr, if_neg, Bool.not_eq_true]
      rw [ih]

@[simp]
theorem readUInt8_cons_zero (a : Nat) (l : List Nat) : readUInt8 (a :: l) 0 = a := rfl

@[simp]
theorem readUInt8_cons_succ (a : Nat) (l : List Nat) (i : Nat) :
    readUInt8 (a :: l) (i + 1) = readUInt8 l i := rfl

@[simp]
theorem readUInt8_nil (i : Nat) : readUInt8 [] i = 256 := by cases i <;> rfl

theorem detectPhase12_eq_noBreak (buffer : Option (List Nat)) (bytesRead : Nat) :
    detectPhase12 buffer bytesRead = detectPhase12NoBreak buffer bytesRead := by
  cases buffer <;>
    simp [detectPhase12, detectPhase12NoBreak, scanFrom_eq_scanFromNoBreak]

theorem scanFrom_window (buffer : List Nat) (w : Nat) :
    scanFrom buffer w 0 ⟨true, true, false⟩ =
      ⟨(List.range' 0 w).all (leOk buffer),
       (List.range' 0 w).all (beOk buffer),
       (List.range' 0 w).any fun j => readUInt8 buffer j == 0⟩ := by
  rw [scanFrom_eq_scanFromNoBreak, scanFromNoBreak_eq]
  simp

theorem leOk_iff (buffer : List Nat) (j : Nat) :
    leOk buffer j = true ↔
      ((j % 2 = 1 → readUInt8 buffer j = 0) ∧ (j % 2 = 0 → readUInt8 buffer j ≠ 0)) := by
  rcases Nat.mod_two_eq_zero_or_one j with h | h <;> simp [leOk, h]

theorem beOk_iff (buffer : List Nat) (j : Nat) :
    beOk buffer j = true ↔
      ((j % 2 = 1 → readUInt8 buffer j ≠ 0) ∧ (j % 2 = 0 → readUInt8 buffer j = 0)) := by
  rcases Nat.mod_two_eq_zero_or_one j with h | h <;> simp [beOk, h]

theorem all_leOk_iff (buffer : List Nat) (w : Nat) :
    (List.range' 0 w).all (leOk buffer) = true ↔
      ∀ j < w, (j % 2 = 1 → readUInt8 buffer j = 0) ∧ (j % 2 = 0 → readUInt8 buffer j ≠ 0) := by
  simp only [List.all_eq_true, List.mem_range'_1, Nat.zero_add, Nat.zero_le, true_and]
  constructor
  · intro h j hj; exact (leOk_iff buffer j).mp (h j hj)
  · intro h j hj; exact (leOk_iff buffer j).mpr (h j hj)

theorem all_beOk_iff (buffer : List Nat) (w : Nat) :
    (List.range' 0 w).all (beOk buffer) = true ↔
      ∀ j < w, (j % 2 = 1 → readUInt8 buffer j ≠ 0) ∧ (j % 2 = 0 → readUInt8 buffer j = 0) := by
  simp only [List.all_eq_true, List.mem_range'_1, Nat.zero_add, Nat.zero_le, true_and]
  constructor
  · intro h j hj; exact (beOk_iff buffer j).mp (h j hj)
  · intro h j hj; exact (beOk_iff buffer j).mpr (h j hj)

theorem any_zero_iff (buffer : List Nat) (w : Nat) :
    ((List.range' 0 w).any fun j => readUInt8 buffer j == 0) = true ↔
      ∃ j < w, readUInt8 buffer j = 0 := by
  simp [List.any_eq_true, List.mem_range'_1]

theorem bom_characterization (l : List Nat) (n : Nat) (h2 : 2 ≤ n) :
    detectEncodingByBOMFromBuffer (some l) n =
      if readUInt8 l 0 = 0xFE ∧ readUInt8 l 1 = 0xFF then some UTF16be
      else if readUInt8 l 0 = 0xFF ∧ readUInt8 l 1 = 0xFE then some UTF16le
      else if n < 3 then none
      else if readUInt8 l 0 = 0xEF ∧ readUInt8 l 1 = 0xBB ∧ readUInt8 l 2 = 0xBF then
        some UTF8_with_bom
      else none := by
  have hn : ¬ n < 2 := by omega
  simp only [detectEncodingByBOMFromBuffer]
  norm_num [UTF16be_BOM, UTF16le_BOM, UTF8_BOM, hn]

/-- Claim C1 (code_bug): the effective detection threshold of `toDecodeStream`
does not equal a supplied `options.minBytesRequiredForDetection`. Because `??`
binds tighter than `?:`, the supplied value only selects between the two
constants by its truthiness: with `minBytesRequiredForDetection = 64` and
`guessEncoding = false` the code uses `AUTO_ENCODING_GUESS_MIN_BYTES = 4096`
where the claim (and the evident intent of the option) requires `64`. The
unsupplied case behaves as the claim states. -/
theorem toDecodeStream_threshold_bug :
    toDecodeStreamMinBytes (some 64) false = AUTO_ENCODING_GUESS_MIN_BYTES
    ∧ AUTO_ENCODING_GUESS_MIN_BYTES = 4096
    ∧ specMinBytesForDetection (some 64) false = 64
    ∧ toDecodeStreamMinBytes (some 64) false ≠ specMinBytesForDetection (some 64) false
    ∧ (∀ g, toDecodeStreamMinBytes none g = specMinBytesForDetection none g) := by
  refine ⟨rfl, rfl, rfl, by decide, fun g => ?_⟩
  cases g <;> rfl

/-- Claim C3 (confirmed): `detectEncodingByBOMFromBuffer` returns `none` for a
null buffer or fewer than 2 valid bytes; returns UTF-16BE for a leading
`[0xFE, 0xFF]` and UTF-16LE for `[0xFF, 0xFE]` regardless of the remaining
bytes; returns `none` when neither two-byte marker matches and fewer than
3 bytes are valid; and otherwise returns UTF-8-with-BOM exactly when the
first three bytes are `[0xEF, 0xBB, 0xBF]`, `none` in all remaining cases. -/
theorem bom_detector_spec (l rest : List Nat) (n : Nat) :
    detectEncodingByBOMFromBuffer none n = none
    ∧ (n < 2 → detectEncodingByBOMFromBuffer (some l) n = none)
    ∧ (2 ≤ n → detectEncodingByBOMFromBuffer (some (0xFE :: 0xFF :: rest)) n = some UTF16be)
    ∧ (2 ≤ n → detectEncodingByBOMFromBuffer (some (0xFF :: 0xFE :: rest)) n = some UTF16le)
    ∧ (n < 3 → ¬(readUInt8 l 0 = 0xFE ∧ readUInt8 l 1 = 0xFF) →
        ¬(readUInt8 l 0 = 0xFF ∧ readUInt8 l 1 = 0xFE) →
        detectEncodingByBOMFromBuffer (some l) n = none)
    ∧ (3 ≤ n →
        (detectEncodingByBOMFromBuffer (some l) n = some UTF8_with_bom ↔
          readUInt8 l 0 = 0xEF ∧ readUInt8 l 1 = 0xBB ∧ readUInt8 l 2 = 0xBF))
    ∧ (3 ≤ n → ¬(readUInt8 l 0 = 0xFE ∧ readUInt8 l 1 = 0xFF) →
        ¬(readUInt8 l 0 = 0xFF ∧ readUInt8 l 1 = 0xFE) →
        ¬(readUInt8 l 0 = 0xEF ∧ readUInt8 l 1 = 0xBB ∧ readUInt8 l 2 = 0xBF) →
        detectEncodingByBOMFromBuffer (some l) n = none) := by
  refine ⟨rfl, ?_, ?_, ?_, ?_, ?_, ?_⟩
  · intro h
    have hn : n < UTF16be_BOM.length := by simp [UTF16be_BOM]; omega
    simp [detectEncodingByBOMFromBuffer, hn]
  · intro h
    rw [bom_characterization _ _ h]
    norm_num
  · intro h
    rw [bom_characterization _ _ h]
    norm_num
  · intro h hbe hle
    by_cases h2 : n < 2
    · have hn : n < UTF16be_BOM.length := by simp [UTF16be_BOM]; omega
      simp [detectEncodingByBOMFromBuffer, hn]
    · rw [bom_characterization _ _ (by omega)]
      rw [if_neg hbe, if_neg hle, if_pos (by omega)]
  · intro h
    rw [bom_characterization _ _ (by omega)]
    constructor
    · intro hres
      by_cases hbe : readUInt8 l 0 = 0xFE ∧ readUInt8 l 1 = 0xFF
      · simp [hbe, UTF16be, UTF8_with_bom] at hres
      by_cases hle : readUInt8 l 0 = 0xFF ∧ readUInt8 l 1 = 0xFE
      · simp [hbe, hle, UTF16le, UTF8_with_bom] at hres
      simp only [if_neg hbe, if_neg hle, if_neg (by omega : ¬ n < 3)] at hres
      by_cases h8 : readUInt8 l 0 = 0xEF ∧ readUInt8 l 1 = 0xBB ∧ readUInt8 l 2 = 0xBF
      · exact h8
      · simp [h8] at hres
    · intro h8
      have hbe : ¬(readUInt8 l 0 = 0xFE ∧ readUInt8 l 1 = 0xFF) := by
        rintro ⟨h0, -⟩; rw [h8.1] at h0; omega
      have hle : ¬(readUInt8 l 0 = 0xFF ∧ readUInt8 l 1 = 0xFE) := by
        rintro ⟨h0, -⟩; rw [h8.1] at h0; omega
      rw [if_neg hbe, if_neg hle, if_neg (by omega : ¬ n < 3), if_pos h8]
  · intro h hbe hle h8
    rw [bom_characterization _ _ (by omega)]
    rw [if_neg hbe, if_neg hle, if_neg (by omega : ¬ n < 3), if_neg h8]

/-- Closed witness for `bom_detector_spec`, applied at concrete inputs
discharging its hypotheses. -/
theorem bom_detector_spec_witness :
    detectEncodingByBOMFromBuffer (some [0xFE, 0xFF, 0x00]) 3 = some UTF16be
    ∧ detectEncodingByBOMFromBuffer (some [0xEF, 0xBB, 0xBF]) 3 = some UTF8_with_bom
    ∧ detectEncodingByBOMFromBuffer (some [0x41, 0x42]) 2 = none := by
  refine ⟨(bom_detector_spec [] [0x00] 3).2.2.1 (by omega), ?_, ?_⟩
  · exact ((bom_detector_spec [0xEF, 0xBB, 0xBF] [] 3).2.2.2.2.2.1 (by omega)).mpr
      (by norm_num)
  · exact (bom_detector_spec [0x41, 0x42] [] 2).2.2.2.2.1 (by omega)
      (by norm_num) (by norm_num)

/-- Claim C6 (confirmed): the early `break` of the zero-byte scan never
changes the scan's final flags, and hence `detectEncodingFromBuffer` computes
the same result as the variant that always scans the full
`min(bytesRead, 512)`-byte window. -/
theorem scan_break_pure_optimization :
    (∀ (buffer : List Nat) (fuel i : Nat) (st : ScanState),
        scanFrom buffer fuel i st = scanFromNoBreak buffer fuel i st)
    ∧ (∀ (classifier : List Nat → Option String) (buffer : Option (List Nat))
        (bytesRead : Nat) (autoGuessEncoding : Bool),
        detectEncodingFromBuffer classifier buffer bytesRead autoGuessEncoding =
          detectEncodingFromBufferNoBreak classifier buffer bytesRead autoGuessEncoding) := by
  refine ⟨scanFrom_eq_scanFromNoBreak, fun classifier buffer bytesRead ag => ?_⟩
  simp [detectEncodingFromBuffer, detectEncodingFromBufferNoBreak, detectPhase12_eq_noBreak]

theorem detectPhase12_of_not_utf16 (l : List Nat) (n : Nat)
    (hbe : detectEncodingByBOMFromBuffer (some l) n ≠ some UTF16be)
    (hle : detectEncodingByBOMFromBuffer (some l) n ≠ some UTF16le) :
    detectPhase12 (some l) n =
      if (List.range' 0 (min n ZERO_BYTE_DETECTION_BUFFER_MAX_LEN)).any
          (fun j => readUInt8 l j == 0) then
        if (List.range' 0 (min n ZERO_BYTE_DETECTION_BUFFER_MAX_LEN)).all (leOk l) then
          ⟨some UTF16le, false⟩
        else if (List.range' 0 (min n ZERO_BYTE_DETECTION_BUFFER_MAX_LEN)).all (beOk l) then
          ⟨some UTF16be, false⟩
        else ⟨detectEncodingByBOMFromBuffer (some l) n, true⟩
      else ⟨detectEncodingByBOMFromBuffer (some l) n, false⟩ := by
  have hbe' : (detectEncodingByBOMFromBuffer (some l) n == some UTF16be) = false := by
    simpa using hbe
  have hle' : (detectEncodingByBOMFromBuffer (some l) n == some UTF16le) = false := by
    simpa using hle
  simp only [detectPhase12, hbe', hle', Bool.or_self, Bool.false_or, Bool.or_false,
    if_false, scanFrom_window, Bool.false_eq_true]

/-- The guess step is skipped whenever the synchronous phases already decided
an encoding, found binary content, guessing is disabled, or the buffer is
null; the result is then exactly the synchronous result. -/
theorem detect_skips_guess (classifier : List Nat → Option String)
    (buffer : Option (List Nat)) (n : Nat) (ag : Bool)
    (h : ag = false ∨ (detectPhase12 buffer n).seemsBinary = true
        ∨ (detectPhase12 buffer n).encoding ≠ none ∨ buffer = none) :
    detectEncodingFromBuffer classifier buffer n ag = detectPhase12 buffer n := by
  rcases h with h | h | h | h
  · simp [detectEncodingFromBuffer, h]
  · simp [detectEncodingFromBuffer, h]
  · have h' : ((detectPhase12 buffer n).encoding == none) = false := by simpa using h
    simp [detectEncodingFromBuffer, h']
  · simp [detectEncodingFromBuffer, h]

/-- The concrete scenario input of the spec: 600 bytes alternating
`0x41`, `0x00` (ASCII letters at even indices, zero at odd indices). -/
def alternating600 : List Nat :=
  (List.range 600).map fun i => if i % 2 = 0 then 0x41 else 0

theorem alternating600_read (j : Nat) (hj : j < 600) :
    readUInt8 alternating600 j = if j % 2 = 0 then 0x41 else 0 := by
  simp [alternating600, readUInt8, List.get?_eq_getElem?, List.getElem?_map,
    List.getElem?_range hj]

theorem alternating600_phase12 :
    detectPhase12 (some alternating600) 600 = ⟨some UTF16le, false⟩ := by
  have hbom : detectEncodingByBOMFromBuffer (some alternating600) 600 = none := by
    rw [bom_characterization _ _ (by omega)]
    rw [alternating600_read 0 (by omega), alternating600_read 1 (by omega)]
    norm_num
  rw [detectPhase12_of_not_utf16 _ _ (by simp [hbom]) (by simp [hbom])]
  have hz : ((List.range' 0 (min 600 ZERO_BYTE_DETECTION_BUFFER_MAX_LEN)).any
      fun j => readUInt8 alternating600 j == 0) = true := by
    rw [any_zero_iff]
    refine ⟨1, by simp [ZERO_BYTE_DETECTION_BUFFER_MAX_LEN], ?_⟩
    rw [alternating600_read 1 (by omega)]; norm_num
  have hall : ((List.range' 0 (min 600 ZERO_BYTE_DETECTION_BUFFER_MAX_LEN)).all
      (leOk alternating600)) = true := by
    rw [all_leOk_iff]
    intro j hj
    have hj600 : j < 600 := by
      simp [ZERO_BYTE_DETECTION_BUFFER_MAX_LEN] at hj; omega
    rw [alternating600_read j hj600]
    rcases Nat.mod_two_eq_zero_or_one j with h | h <;> simp [h]
  rw [if_pos hz, if_pos hall]

/-- Claim C4 (confirmed): for a buffer without a UTF-16 BOM, over the scanned
window of the first `min(bytesRead, 512)` bytes the zero-byte heuristic makes
no determination when no scanned byte is zero; yields UTF-16LE when some
scanned byte is zero, every odd-indexed scanned byte is zero and every
even-indexed scanned byte is nonzero; yields UTF-16BE in the mirrored case;
and otherwise flags the content as binary. In particular, 600 bytes
alternating `0x41, 0x00` are detected as UTF-16LE. -/
theorem zero_byte_heuristic_spec (classifier : List Nat → Option String)
    (l : List Nat) (n : Nat) (ag : Bool)
    (hle : detectEncodingByBOMFromBuffer (some l) n ≠ some UTF16le)
    (hbe : detectEncodingByBOMFromBuffer (some l) n ≠ some UTF16be) :
    ((∀ j < min n ZERO_BYTE_DETECTION_BUFFER_MAX_LEN, readUInt8 l j ≠ 0) →
      detectEncodingFromBuffer classifier (some l) n false =
        ⟨detectEncodingByBOMFromBuffer (some l) n, false⟩)
    ∧ ((∃ j < min n ZERO_BYTE_DETECTION_BUFFER_MAX_LEN, readUInt8 l j = 0) →
      (∀ j < min n ZERO_BYTE_DETECTION_BUFFER_MAX_LEN,
        (j % 2 = 1 → readUInt8 l j = 0) ∧ (j % 2 = 0 → readUInt8 l j ≠ 0)) →
      detectEncodingFromBuffer classifier (some l) n false = ⟨some UTF16le, false⟩)
    ∧ ((∃ j < min n ZERO_BYTE_DETECTION_BUFFER_MAX_LEN, readUInt8 l j = 0) →
      (∀ j < min n ZERO_BYTE_DETECTION_BUFFER_MAX_LEN,
        (j % 2 = 1 → readUInt8 l j ≠ 0) ∧ (j % 2 = 0 → readUInt8 l j = 0)) →
      detectEncodingFromBuffer classifier (some l) n false = ⟨some UTF16be, false⟩)
    ∧ ((∃ j < min n ZERO_BYTE_DETECTION_BUFFER_MAX_LEN, readUInt8 l j = 0) →
      ¬(∀ j < min n ZERO_BYTE_DETECTION_BUFFER_MAX_LEN,
        (j % 2 = 1 → readUInt8 l j = 0) ∧ (j % 2 = 0 → readUInt8 l j ≠ 0)) →
      ¬(∀ j < min n ZERO_BYTE_DETECTION_BUFFER_MAX_LEN,
        (j % 2 = 1 → readUInt8 l j ≠ 0) ∧ (j % 2 = 0 → readUInt8 l j = 0)) →
      detectEncodingFromBuffer classifier (some l) n false =
        ⟨detectEncodingByBOMFromBuffer (some l) n, true⟩)
    ∧ (detectEncodingFromBuffer classifier (some alternating600) 600 ag).encoding =
        some UTF16le := by
  have hrw := detectPhase12_of_not_utf16 l n hbe hle
  have hskip : detectEncodingFromBuffer classifier (some l) n false =
      detectPhase12 (some l) n :=
    detect_skips_guess classifier (some l) n false (Or.inl rfl)
  refine ⟨?_, ?_, ?_, ?_, ?_⟩
  · intro h
    have hz : ((List.range' 0 (min n ZERO_BYTE_DETECTION_BUFFER_MAX_LEN)).any
        fun j => readUInt8 l j == 0) = false := by
      rw [← Bool.not_eq_true, any_zero_iff]
      rintro ⟨j, hj, hzj⟩
      exact h j hj hzj
    rw [hskip, hrw, if_neg (by simp [hz])]
  · intro hex hall
    have hz : ((List.range' 0 (min n ZERO_BYTE_DETECTION_BUFFER_MAX_LEN)).any
        fun j => readUInt8 l j == 0) = true := (any_zero_iff _ _).mpr hex
    have hl : ((List.range' 0 (min n ZERO_BYTE_DETECTION_BUFFER_MAX_LEN)).all
        (leOk l)) = true := (all_leOk_iff _ _).mpr hall
    rw [hskip, hrw, if_pos hz, if_pos hl]
  · intro hex hall
    have hz : ((List.range' 0 (min n ZERO_BYTE_DETECTION_BUFFER_MAX_LEN)).any
        fun j => readUInt8 l j == 0) = true := (any_zero_iff _ _).mpr hex
    have hb : ((List.range' 0 (min n ZERO_BYTE_DETECTION_BUFFER_MAX_LEN)).all
        (beOk l)) = true := (all_beOk_iff _ _).mpr hall
    have hw : 0 < min n ZERO_BYTE_DETECTION_BUFFER_MAX_LEN := by
      obtain ⟨j, hj, -⟩ := hex; omega
    have hz0 : readUInt8 l 0 = 0 := (hall 0 hw).2 rfl
    have hl : ((List.range' 0 (min n ZERO_BYTE_DETECTION_BUFFER_MAX_LEN)).all
        (leOk l)) = false := by
      rw [← Bool.not_eq_true, all_leOk_iff]
      intro hcon
      exact (hcon 0 hw).2 rfl hz0
    rw [hskip, hrw, if_pos hz, if_neg (by simp [hl]), if_pos hb]
  · intro hex hnl hnb
    have hz : ((List.range' 0 (min n ZERO_BYTE_DETECTION_BUFFER_MAX_LEN)).any
        fun j => readUInt8 l j == 0) = true := (any_zero_iff _ _).mpr hex
    have hl : ((List.range' 0 (min n ZERO_BYTE_DETECTION_BUFFER_MAX_LEN)).all
        (leOk l)) = false := by
      rw [← Bool.not_eq_true, all_leOk_iff]; exact hnl
    have hb : ((List.range' 0 (min n ZERO_BYTE_DETECTION_BUFFER_MAX_LEN)).all
        (beOk l)) = false := by
      rw [← Bool.not_eq_true, all_beOk_iff]; exact hnb
    rw [hskip, hrw, if_pos hz, if_neg (by simp [hl]), if_neg (by simp [hb])]
  · rw [detect_skips_guess classifier (some alternating600) 600 ag
      (Or.inr (Or.inr (Or.inl (by rw [alternating600_phase12]; simp))))]
    rw [alternating600_phase12]

/-- Closed witness for `zero_byte_heuristic_spec`: the buffer `[0x41, 0x00]`
with 2 bytes read has no UTF-16 BOM, contains a zero byte at the odd index
and a nonzero byte at the even index, and is detected as UTF-16LE. -/
theorem zero_byte_heuristic_spec_witness :
    detectEncodingFromBuffer (fun _ => none) (some [0x41, 0x00]) 2 false =
      ⟨some UTF16le, false⟩ := by
  refine (zero_byte_heuristic_spec (fun _ => none) [0x41, 0x00] 2 false
    (by decide) (by decide)).2.1 ⟨1, by decide, by decide⟩ ?_
  intro j hj
  have : j < 2 := by simpa [ZERO_BYTE_DETECTION_BUFFER_MAX_LEN] using hj
  interval_cases j <;> exact ⟨fun h => by simp_all, fun h => by simp_all⟩

/-- Claim C5 (confirmed): `detectEncodingFromBuffer` follows the strict
precedence chain: when the BOM detector answers UTF-16 (either byte order)
the zero-byte heuristic is skipped and its answer is final; a null buffer
yields `⟨none, false⟩`; the statistical guesser is invoked exactly when no
encoding was decided, the content does not seem binary, guessing is enabled
and the buffer is present, its result (possibly `none`) becoming the final
encoding over `buffer.slice(0, bytesRead)`; in every other case the
synchronous result stands. In particular `[0xEF, 0xBB, 0xBF, 0x68, 0x69]`
yields UTF-8-with-BOM with `seemsBinary = false`. -/
theorem detect_precedence_chain (classifier : List Nat → Option String)
    (l : List Nat) (n : Nat) (ag : Bool) :
    (detectEncodingByBOMFromBuffer (some l) n = some UTF16be
      ∨ detectEncodingByBOMFromBuffer (some l) n = some UTF16le →
      detectEncodingFromBuffer classifier (some l) n ag =
        ⟨detectEncodingByBOMFromBuffer (some l) n, false⟩)
    ∧ detectEncodingFromBuffer classifier none n ag = ⟨none, false⟩
    ∧ ((detectPhase12 (some l) n).encoding = none →
      (detectPhase12 (some l) n).seemsBinary = false →
      detectEncodingFromBuffer classifier (some l) n true =
        ⟨guessEncodingByBuffer classifier (l.take n), false⟩)
    ∧ (ag = false ∨ (detectPhase12 (some l) n).seemsBinary = true
        ∨ (detectPhase12 (some l) n).encoding ≠ none →
      detectEncodingFromBuffer classifier (some l) n ag = detectPhase12 (some l) n)
    ∧ detectEncodingFromBuffer classifier (some [0xEF, 0xBB, 0xBF, 0x68, 0x69]) 5 ag =
        ⟨some UTF8_with_bom, false⟩ := by
  refine ⟨?_, ?_, ?_, ?_, ?_⟩
  · intro hbom
    have h12 : detectPhase12 (some l) n =
        ⟨detectEncodingByBOMFromBuffer (some l) n, false⟩ := by
      rcases hbom with h | h <;> simp [detectPhase12, h]
    have hskip := detect_skips_guess classifier (some l) n ag
      (Or.inr (Or.inr (Or.inl (by rw [h12]; rcases hbom with h | h <;> simp [h]))))
    rw [hskip, h12]
  · simp [detectEncodingFromBuffer, detectPhase12, detectEncodingByBOMFromBuffer]
  · intro henc hbin
    simp [detectEncodingFromBuffer, henc, hbin]
  · intro h
    refine detect_skips_guess classifier (some l) n ag ?_
    rcases h with h | h | h
    exacts [Or.inl h, Or.inr (Or.inl h), Or.inr (Or.inr (Or.inl h))]
  · have h12 : detectPhase12 (some [0xEF, 0xBB, 0xBF, 0x68, 0x69]) 5 =
        ⟨some UTF8_with_bom, false⟩ := by decide
    rw [detect_skips_guess classifier _ 5 ag
      (Or.inr (Or.inr (Or.inl (by rw [h12]; simp)))), h12]

/-- Closed witness for `detect_precedence_chain`: with no BOM, no zero byte,
and guessing enabled, the classifier's (alias-normalized) answer becomes the
final encoding. -/
theorem detect_precedence_chain_witness :
    detectEncodingFromBuffer (fun _ => some "windows-1252") (some [0x68, 0x69]) 2 true =
      ⟨guessEncodingByBuffer (fun _ => some "windows-1252") ([0x68, 0x69].take 2), false⟩ := by
  exact (detect_precedence_chain (fun _ => some "windows-1252") [0x68, 0x69] 2 true).2.2.1
    (by decide) (by decide)

/-- Claim C10 (confirmed): a buffer whose first three bytes are the UTF-8 BOM
(with at least 3 bytes read) is never detected as UTF-16: the zero-byte
heuristic still runs, but the nonzero bytes at indices 0 and 1 falsify both
could-be-UTF16 flags, so the encoding always stays UTF-8-with-BOM — while
`seemsBinary` becomes `true` exactly when a zero byte occurs later
(at index ≥ 3) in the scanned window. -/
theorem utf8bom_prefix_stays_utf8bom (classifier : List Nat → Option String)
    (rest : List Nat) (n : Nat) (ag : Bool) (h3 : 3 ≤ n) :
    (detectEncodingFromBuffer classifier (some (0xEF :: 0xBB :: 0xBF :: rest)) n ag).encoding
      = some UTF8_with_bom
    ∧ ((detectEncodingFromBuffer classifier
          (some (0xEF :: 0xBB :: 0xBF :: rest)) n ag).seemsBinary = true ↔
        ∃ j, 3 ≤ j ∧ j < min n ZERO_BYTE_DETECTION_BUFFER_MAX_LEN ∧
          readUInt8 (0xEF :: 0xBB :: 0xBF :: rest) j = 0) := by
  have hzlen : ZERO_BYTE_DETECTION_BUFFER_MAX_LEN = 512 := rfl
  have hbom : detectEncodingByBOMFromBuffer (some (0xEF :: 0xBB :: 0xBF :: rest)) n =
      some UTF8_with_bom := by
    rw [bom_characterization _ _ (by omega)]
    have hn3 : ¬ n < 3 := by omega
    norm_num [hn3]
  have hrw := detectPhase12_of_not_utf16 (0xEF :: 0xBB :: 0xBF :: rest) n
    (by rw [hbom]; decide) (by rw [hbom]; decide)
  have h1w : 1 < min n ZERO_BYTE_DETECTION_BUFFER_MAX_LEN := by omega
  have h0w : 0 < min n ZERO_BYTE_DETECTION_BUFFER_MAX_LEN := by omega
  have hl : ((List.range' 0 (min n ZERO_BYTE_DETECTION_BUFFER_MAX_LEN)).all
      (leOk (0xEF :: 0xBB :: 0xBF :: rest))) = false := by
    rw [← Bool.not_eq_true, all_leOk_iff]
    intro hcon
    simpa using (hcon 1 h1w).1 rfl
  have hb : ((List.range' 0 (min n ZERO_BYTE_DETECTION_BUFFER_MAX_LEN)).all
      (beOk (0xEF :: 0xBB :: 0xBF :: rest))) = false := by
    rw [← Bool.not_eq_true, all_beOk_iff]
    intro hcon
    simpa using (hcon 0 h0w).2 rfl
  have h12 : detectPhase12 (some (0xEF :: 0xBB :: 0xBF :: rest)) n =
      ⟨some UTF8_with_bom,
        (List.range' 0 (min n ZERO_BYTE_DETECTION_BUFFER_MAX_LEN)).any
          fun j => readUInt8 (0xEF :: 0xBB :: 0xBF :: rest) j == 0⟩ := by
    rw [hrw]
    by_cases hz : ((List.range' 0 (min n ZERO_BYTE_DETECTION_BUFFER_MAX_LEN)).any
        fun j => readUInt8 (0xEF :: 0xBB :: 0xBF :: rest) j == 0) = true
    · rw [if_pos hz, if_neg (by simp [hl]), if_neg (by simp [hb]), hbom, hz]
    · have hz' : ((List.range' 0 (min n ZERO_BYTE_DETECTION_BUFFER_MAX_LEN)).any
          fun j => readUInt8 (0xEF :: 0xBB :: 0xBF :: rest) j == 0) = false := by
        simpa using hz
      rw [if_neg hz, hbom, hz']
  have hdet : detectEncodingFromBuffer classifier (some (0xEF :: 0xBB :: 0xBF :: rest)) n ag =
      detectPhase12 (some (0xEF :: 0xBB :: 0xBF :: rest)) n :=
    detect_skips_guess classifier _ n ag (Or.inr (Or.inr (Or.inl (by rw [h12]; simp))))
  rw [hdet, h12]
  refine ⟨rfl, ?_⟩
  rw [any_zero_iff]
  constructor
  · rintro ⟨j, hj, hzj⟩
    match j, hzj with
    | 0, hzj => simp at hzj
    | 1, hzj => simp at hzj
    | 2, hzj => simp at hzj
    | j + 3, hzj => exact ⟨j + 3, by omega, hj, hzj⟩
  · rintro ⟨j, -, hj, hzj⟩
    exact ⟨j, hj, hzj⟩

/-- Closed witness for `utf8bom_prefix_stays_utf8bom`: a UTF-8 BOM followed
by a zero byte keeps the UTF-8-with-BOM encoding and flags the content as
binary. -/
theorem utf8bom_prefix_stays_utf8bom_witness :
    (detectEncodingFromBuffer (fun _ => none) (some [0xEF, 0xBB, 0xBF, 0x00]) 4 false).encoding
      = some UTF8_with_bom := by
  exact (utf8bom_prefix_stays_utf8bom (fun _ => none) [0x00] 4 false (by omega)).1

/-- An incremental encoder instance (the external `iconv.getEncoder` object):
`write` encodes one text chunk, `flush` is whatever `encoder.end()` returns
at end of stream. -/
structure Encoder where
  write : String → List Nat
  flush : List Nat

/-- Embedding of the pull loop of `toEncodeReadable(readable, encoding, options)`:
the list of byte chunks produced by repeated `read()` calls until `null`,
given the text chunks the source yields and the running `bytesRead` counter.
While text remains, each chunk is encoded incrementally; at end of input,
if nothing was ever read and `addBOM` is set, the exact BOM byte sequence for
the target encoding is synthesized (the `switch` falls through for other
encodings), otherwise the encoder's leftovers are returned when nonempty. -/
def toEncodeReadableChunks (encoder : Encoder) (encoding : String) (addBOM : Bool) :
    List String → Nat → List (List Nat)
  | [], bytesRead =>
    if bytesRead = 0 ∧ addBOM = true then
      if encoding = UTF8 ∨ encoding = UTF8_with_bom then [UTF8_BOM]
      else if encoding = UTF16be then [UTF16be_BOM]
      else if encoding = UTF16le then [UTF16le_BOM]
      else if 0 < encoder.flush.length then [encoder.flush] else []
    else if 0 < encoder.flush.length then [encoder.flush] else []
  | chunk :: restChunks, bytesRead =>
    encoder.write chunk ::
      toEncodeReadableChunks encoder encoding addBOM restChunks (bytesRead + chunk.length)

/-- Claim C8 (confirmed): for a source yielding no chunks with `addBOM = true`,
`toEncodeReadable` produces exactly the two BOM bytes `[0xFF, 0xFE]` for
UTF-16LE (and the corresponding markers for UTF-16BE and UTF-8 variants) and
nothing else, independently of the encoder — the BOM is synthesized by the
adapter, not produced by the encoder. -/
theorem encode_empty_input_bom (encoder : Encoder) :
    toEncodeReadableChunks encoder UTF16le true [] 0 = [[0xFF, 0xFE]]
    ∧ toEncodeReadableChunks encoder UTF16be true [] 0 = [[0xFE, 0xFF]]
    ∧ toEncodeReadableChunks encoder UTF8 true [] 0 = [[0xEF, 0xBB, 0xBF]]
    ∧ toEncodeReadableChunks encoder UTF8_with_bom true [] 0 = [[0xEF, 0xBB, 0xBF]] := by
  refine ⟨?_, ?_, ?_, ?_⟩ <;>
    simp [toEncodeReadableChunks, UTF8, UTF8_with_bom, UTF16be, UTF16le,
      UTF8_BOM, UTF16be_BOM, UTF16le_BOM]

/-- Claim C2 counterexample: the code rejects the classifier label before
normalizing, comparing the merely lowercased label against the ignore set.
On the label `"UTF-16"` the code returns `none`, while the claimed
normalize-first pipeline would let it survive (its normalized form `"utf16"`
is not in the ignore set) and return `some "utf16"`. -/
theorem guess_label_order_counterexample :
    guessEncodingLogic (some "UTF-16") = none
    ∧ specGuessLabelLogic (some "UTF-16") = some "utf16"
    ∧ guessEncodingLogic (some "UTF-16") ≠ specGuessLabelLogic (some "UTF-16") := by
  refine ⟨by decide, by decide, by decide⟩

/-- Claim C2 amended (corrected): the guesser's label processing rejects a
label (returning `none`) exactly when its lowercased — not normalized — form
equals one of `{ascii, utf-16, utf-32}`; a surviving label is then normalized
(strip non-alphanumerics, lowercase) and mapped through the fixed alias table
(`ibm866 → cp866`, `big5 → cp950`), unmapped names passing through in
normalized form. -/
theorem guess_label_logic_spec (label : String) (hne : label ≠ "") :
    (guessEncodingLogic (some label) = none ↔ jsToLowerCase label ∈ IGNORE_ENCODINGS)
    ∧ (jsToLowerCase label ∉ IGNORE_ENCODINGS →
      guessEncodingLogic (some label) =
        some ((JSCHARDET_TO_ICONV_ENCODINGS (normalizeEncodingName label)).getD
          (normalizeEncodingName label))) := by
  constructor
  · by_cases hmem : jsToLowerCase label ∈ IGNORE_ENCODINGS <;>
      simp [guessEncodingLogic, hne, hmem]
  · intro hmem
    simp only [guessEncodingLogic, if_neg hne, if_neg hmem]
    cases h : JSCHARDET_TO_ICONV_ENCODINGS (normalizeEncodingName label) <;>
      simp [toIconvLiteEncoding, h]

/-- Closed witness for `guess_label_logic_spec` at the label `"IBM866"`:
it survives the ignore check and is alias-mapped to `cp866`. -/
theorem guess_label_logic_spec_witness :
    guessEncodingLogic (some "IBM866") =
      some ((JSCHARDET_TO_ICONV_ENCODINGS (normalizeEncodingName "IBM866")).getD
        (normalizeEncodingName "IBM866")) := by
  exact (guess_label_logic_spec "IBM866" (by decide)).2 (by decide)

theorem toLower_ne_dash (c : Char) (h : c.isAlphanum = true) : c.toLower ≠ '-' := by
  simp only [Char.toLower]
  by_cases hc : c.toNat ≥ 65 ∧ c.toNat ≤ 90
  · rw [if_pos hc]
    have key : ∀ m : Nat, 65 ≤ m → m ≤ 90 → Char.ofNat (m + 32) ≠ '-' := by
      intro m hm1 hm2
      interval_cases m <;> decide
    exact key _ hc.1 hc.2
  · rw [if_neg hc]
    intro hce
    rw [hce] at h
    simp [Char.isAlphanum, Char.isAlpha, Char.isUpper, Char.isLower, Char.isDigit] at h

theorem normalize_no_dash (s : String) : '-' ∉ (normalizeEncodingName s).data := by
  intro hmem
  rcases List.mem_map.mp hmem with ⟨c, hc, hcl⟩
  exact toLower_ne_dash c (List.mem_filter.mp hc).2 hcl

theorem normalize_ne_utf16 (s : String) :
    normalizeEncodingName s ≠ "utf-16" ∧ normalizeEncodingName s ≠ "utf-32" := by
  constructor <;>
    · intro h
      apply normalize_no_dash s
      rw [h]
      decide

theorem toIconvLiteEncoding_ne_dashed (s : String) :
    toIconvLiteEncoding s ≠ "utf-16" ∧ toIconvLiteEncoding s ≠ "utf-32" := by
  have hc : JSCHARDET_TO_ICONV_ENCODINGS (normalizeEncodingName s) = none
      ∨ JSCHARDET_TO_ICONV_ENCODINGS (normalizeEncodingName s) = some "cp866"
      ∨ JSCHARDET_TO_ICONV_ENCODINGS (normalizeEncodingName s) = some "cp950" := by
    unfold JSCHARDET_TO_ICONV_ENCODINGS
    split_ifs <;> simp
  rcases hc with h | h | h <;>
    simp [toIconvLiteEncoding, h, normalize_ne_utf16]

/-- Claim C7 counterexample: the claim quantifies over every possible
classifier result; for the punctuated label `"as-cii"` the lowercased form
`"as-cii"` is not in the ignore set, so the label survives, normalizes to
`"ascii"`, and is returned — the caller does receive `"ascii"`. -/
theorem guess_returns_ascii_counterexample :
    guessEncodingByBuffer (fun _ => some "as-cii") [] = some "ascii" := by
  decide

/-- Claim C7 amended (corrected): `guessEncodingByBuffer` never returns
`"utf-16"` or `"utf-32"` for any classifier label; any label whose lowercased
form is in the ignore set (in particular `ascii`, `utf-16`, `utf-32` in any
capitalization) is rejected, yielding `none`; and `"ascii"` is never returned
when the classifier label consists solely of alphanumeric characters — only a
label containing punctuation (such as `"as-cii"`) can normalize to and
return `"ascii"`. -/
theorem guess_never_returns_ignored (classifier : List Nat → Option String)
    (buffer : List Nat) :
    guessEncodingByBuffer classifier buffer ≠ some "utf-16"
    ∧ guessEncodingByBuffer classifier buffer ≠ some "utf-32"
    ∧ (∀ label, classifier (buffer.take AUTO_ENCODING_GUESS_MAX_BYTES) = some label →
        jsToLowerCase label ∈ IGNORE_ENCODINGS →
        guessEncodingByBuffer classifier buffer = none)
    ∧ (∀ label, classifier (buffer.take AUTO_ENCODING_GUESS_MAX_BYTES) = some label →
        label.data.all Char.isAlphanum = true →
        guessEncodingByBuffer classifier buffer ≠ some "ascii") := by
  have hdef : guessEncodingByBuffer classifier buffer =
      guessEncodingLogic (classifier (buffer.take AUTO_ENCODING_GUESS_MAX_BYTES)) := rfl
  rw [hdef]
  cases hcl : classifier (buffer.take AUTO_ENCODING_GUESS_MAX_BYTES) with
  | none => simp [guessEncodingLogic]
  | some label =>
    by_cases hne : label = ""
    · subst hne
      exact ⟨by simp [guessEncodingLogic], by simp [guessEncodingLogic],
        fun _ _ _ => by simp [guessEncodingLogic], fun _ _ _ => by simp [guessEncodingLogic]⟩
    by_cases hmem : jsToLowerCase label ∈ IGNORE_ENCODINGS
    · have hres : guessEncodingLogic (some label) = none := by
        simp [guessEncodingLogic, hne, hmem]
      exact ⟨by simp [hres], by simp [hres], fun _ _ _ => hres, fun _ _ _ => by simp [hres]⟩
    · have hres : guessEncodingLogic (some label) = some (toIconvLiteEncoding label) := by
        simp [guessEncodingLogic, hne, hmem]
      refine ⟨by simp [hres, toIconvLiteEncoding_ne_dashed],
        by simp [hres, toIconvLiteEncoding_ne_dashed], ?_, ?_⟩
      · intro label' hl' hmem'
        rw [Option.some_inj.mp hl'] at hmem
        exact absurd hmem' hmem
      · intro label' hl' halnum
        rw [← Option.some_inj.mp hl'] at halnum
        rw [hres]
        have hfix : normalizeEncodingName label = jsToLowerCase label := by
          simp only [normalizeEncodingName, jsToLowerCase]
          rw [List.filter_eq_self.mpr (by simpa [List.all_eq_true] using halnum)]
        intro hcon
        have : toIconvLiteEncoding label = "ascii" := Option.some_inj.mp hcon
        unfold toIconvLiteEncoding at this
        rw [hfix] at this
        by_cases h866 : jsToLowerCase label = "ibm866"
        · simp [JSCHARDET_TO_ICONV_ENCODINGS, h866] at this
        by_cases h950 : jsToLowerCase label = "big5"
        · simp [JSCHARDET_TO_ICONV_ENCODINGS, h866, h950] at this
        · simp only [JSCHARDET_TO_ICONV_ENCODINGS, if_neg h866, if_neg h950] at this
          rw [this] at hmem
          simp [IGNORE_ENCODINGS] at hmem

/-- Closed witness for `guess_never_returns_ignored`: the capitalized label
`"ASCII"` is rejected outright. -/
theorem guess_never_returns_ignored_witness :
    guessEncodingByBuffer (fun _ => some "ASCII") [] = none := by
  exact (guess_never_returns_ignored (fun _ => some "ASCII") []).2.2.1 "ASCII" rfl (by decide)

/-- The literal characters of `windows` in the regex `/windows(\d+)/`. -/
def windowsPattern : List Char := ['w', 'i', 'n', 'd', 'o', 'w', 's']

/-- Whether the second list starts with the first one, character by
character. -/
def startsWithChars : List Char → List Char → Bool
  | [], _ => true
  | _ :: _, [] => false
  | p :: ps, c :: cs => p == c && startsWithChars ps cs

/-- Embedding of `enc.match(/windows(\d+)/)`: scan left to right for the
first position where the literal `windows` is followed by at least one
decimal digit; the value is the (greedy) captured digit run. -/
def windowsDigits : List Char → Option (List Char)
  | [] => none
  | c :: cs =>
    if startsWithChars windowsPattern (c :: cs) then
      let ds := ((c :: cs).drop windowsPattern.length).takeWhile Char.isDigit
      if ds.isEmpty then windowsDigits cs else some ds
    else windowsDigits cs

/-- Embedding of `toCanonicalName(enc)`: the fixed label substitutions, then
the `windows(\d+)` rewrite, and otherwise the identity. -/
def toCanonicalName (enc : String) : String :=
  if enc = "shiftjis" then "shift-jis"
  else if enc = "utf16le" then "utf-16le"
  else if enc = "utf16be" then "utf-16be"
  else if enc = "big5hkscs" then "big5-hkscs"
  else if enc = "eucjp" then "euc-jp"
  else if enc = "euckr" then "euc-kr"
  else if enc = "koi8r" then "koi8-r"
  else if enc = "koi8u" then "koi8-u"
  else if enc = "macroman" then "x-mac-roman"
  else if enc = "utf8bom" then "utf8"
  else
    match windowsDigits enc.data with
    | some ds => "windows-" ++ ⟨ds⟩
    | none => enc

theorem windowsDigits_some {l ds : List Char} (h : windowsDigits l = some ds) :
    ds ≠ [] ∧ ∀ c ∈ ds, c.isDigit = true := by
  induction l with
  | nil => simp [windowsDigits] at h
  | cons c cs ih =>
    rw [windowsDigits] at h
    by_cases hs : startsWithChars windowsPattern (c :: cs) = true
    · rw [if_pos hs] at h
      by_cases he : (((c :: cs).drop windowsPattern.length).takeWhile Char.isDigit).isEmpty
      · rw [if_pos he] at h
        exact ih h
      · rw [if_neg he] at h
        have hds := Option.some_inj.mp h
        subst hds
        refine ⟨by simpa [List.isEmpty_iff] using he, fun x hx => ?_⟩
        exact List.mem_takeWhile_imp hx
    · rw [if_neg hs] at h
      exact ih h

theorem digit_not_w {c : Char} (h : c.isDigit = true) : ('w' == c) = false := by
  by_cases hw : ('w' == c) = true
  · rw [← beq_iff_eq.mp hw] at h
    simp [Char.isDigit] at h
  · simpa using hw

theorem windowsDigits_all_digits {ds : List Char} (h : ∀ c ∈ ds, c.isDigit = true) :
    windowsDigits ds = none := by
  induction ds with
  | nil => rfl
  | cons c cs ih =>
    rw [windowsDigits, windowsPattern, startsWithChars]
    rw [digit_not_w (h c (by simp))]
    simp only [Bool.false_and, if_false, Bool.false_eq_true]
    exact ih fun x hx => h x (by simp [hx])

theorem windowsDigits_canonical_form (ds : List Char) (h : ∀ c ∈ ds, c.isDigit = true) :
    windowsDigits ('w' :: 'i' :: 'n' :: 'd' :: 'o' :: 'w' :: 's' :: '-' :: ds) = none := by
  rw [windowsDigits]
  rw [if_pos (by simp [windowsPattern, startsWithChars])]
  rw [if_pos (by simp [windowsPattern, List.takeWhile])]
  rw [windowsDigits]
  rw [if_neg (by simp [windowsPattern, startsWithChars])]
  rw [windowsDigits]
  rw [if_neg (by simp [windowsPattern, startsWithChars])]
  rw [windowsDigits]
  rw [if_neg (by simp [windowsPattern, startsWithChars])]
  rw [windowsDigits]
  rw [if_neg (by simp [windowsPattern, startsWithChars])]
  rw [windowsDigits]
  rw [if_neg (by simp [windowsPattern, startsWithChars])]
  rw [windowsDigits]
  rw [if_neg (by simp [windowsPattern, startsWithChars])]
  rw [windowsDigits]
  rw [if_neg (by simp [windowsPattern, startsWithChars, digit_not_w])]
  exact windowsDigits_all_digits h

theorem windows_output_data (ds : List Char) :
    ("windows-" ++ (⟨ds⟩ : String)).data =
      'w' :: 'i' :: 'n' :: 'd' :: 'o' :: 'w' :: 's' :: '-' :: ds := by
  rw [String.data_append]
  rfl

theorem windows_output_head (ds : List Char) (k : String)
    (hk : k.data.head? ≠ some 'w') : "windows-" ++ (⟨ds⟩ : String) ≠ k := by
  intro he
  apply hk
  rw [← he, windows_output_data]
  rfl

/-- Claim C9 (confirmed): `toCanonicalName` is idempotent on every string:
each fixed substitution produces a label that no rule rewrites again, a
`windows(\d+)` rewrite produces `windows-<digits>`, in which `windows` is no
longer followed by a digit, and every other string passes through
unchanged. -/
theorem toCanonicalName_idempotent (x : String) :
    toCanonicalName (toCanonicalName x) = toCanonicalName x := by
  by_cases h1 : x = "shiftjis"
  · subst h1; decide
  by_cases h2 : x = "utf16le"
  · subst h2; decide
  by_cases h3 : x = "utf16be"
  · subst h3; decide
  by_cases h4 : x = "big5hkscs"
  · subst h4; decide
  by_cases h5 : x = "eucjp"
  · subst h5; decide
  by_cases h6 : x = "euckr"
  · subst h6; decide
  by_cases h7 : x = "koi8r"
  · subst h7; decide
  by_cases h8 : x = "koi8u"
  · subst h8; decide
  by_cases h9 : x = "macroman"
  · subst h9; decide
  by_cases h10 : x = "utf8bom"
  · subst h10; decide
  cases hw : windowsDigits x.data with
  | none =>
    have hx : toCanonicalName x = x := by
      simp only [toCanonicalName, if_neg h1, if_neg h2, if_neg h3, if_neg h4, if_neg h5,
        if_neg h6, if_neg h7, if_neg h8, if_neg h9, if_neg h10, hw]
    rw [hx]
    exact hx
  | some ds =>
    have hx : toCanonicalName x = "windows-" ++ (⟨ds⟩ : String) := by
      simp only [toCanonicalName, if_neg h1, if_neg h2, if_neg h3, if_neg h4, if_neg h5,
        if_neg h6, if_neg h7, if_neg h8, if_neg h9, if_neg h10, hw]
    rw [hx]
    obtain ⟨-, hdig⟩ := windowsDigits_some hw
    have hnm : windowsDigits ("windows-" ++ (⟨ds⟩ : String)).data = none := by
      rw [windows_output_data]
      exact windowsDigits_canonical_form ds hdig
    rw [toCanonicalName]
    rw [if_neg (windows_output_head ds _ (by decide)),
      if_neg (windows_output_head ds _ (by decide)),
      if_neg (windows_output_head ds _ (by decide)),
      if_neg (windows_output_head ds _ (by decide)),
      if_neg (windows_output_head ds _ (by decide)),
      if_neg (windows_output_head ds _ (by decide)),
      if_neg (windows_output_head ds _ (by decide)),
      if_neg (windows_output_head ds _ (by decide)),
      if_neg (windows_output_head ds _ (by decide)),
      if_neg (windows_output_head ds _ (by decide))]
    rw [hnm]

end Encoding
